import Mathlib

/-!
Shallow embedding of the daily survival video generator
(`src/main.py` and `src/make_video.py`).

Media timestamps and durations are modelled over `ℚ` (the Python code
computes with floats; every algorithm here is exact over the rationals).
External collaborators — the file system, `json.loads`, the Pexels and
Telegram HTTP APIs, MoviePy clip decoding — are modelled as explicit
inputs or oracle functions, and an exception raised by such a call is
modelled as the corresponding `Option`/`Bool` failure outcome.
-/

/-- `TARGET_SECONDS = 30` (src/main.py line 41). -/
def TARGET_SECONDS : ℚ := 30

/-- `MIN_CLIP = 5` (src/main.py line 42). -/
def MIN_CLIP : ℚ := 5

/-- `MAX_CLIP = 12` (src/main.py line 43). -/
def MAX_CLIP : ℚ := 12

/-- `MAX_DOWNLOADS = 6` (src/main.py line 44). -/
def MAX_DOWNLOADS : ℕ := 6

/-- The whitespace characters recognised by Python's `\s` (ASCII) in
`re.split` and by `str.strip()`. -/
def isPySpace (c : Char) : Bool :=
  c = ' ' || c = '\t' || c = '\n' || c = '\r' || c = '\x0b' || c = '\x0c'

/-- The sentence-terminating punctuation of the lookbehind `(?<=[.!?])`. -/
def isTermPunct (c : Char) : Bool :=
  c = '.' || c = '!' || c = '?'

/-- Scanner state for `re.split(r'(?<=[.!?])\s+', text)`: scanning
normally (remembering whether the previous character was terminal
punctuation), or consuming the whitespace run of a match. -/
inductive SplitState where
  | normal (prevPunct : Bool)
  | skipping

/-- Character-level model of `re.split(r'(?<=[.!?])\s+', text)`: a
maximal whitespace run immediately preceded by `.`, `!` or `?` separates
two fragments.  `cur` holds the current fragment reversed. -/
def splitGo (st : SplitState) (cur : List Char) : List Char → List (List Char)
  | [] => [cur.reverse]
  | c :: cs =>
    match st with
    | .skipping =>
      if isPySpace c then splitGo .skipping cur cs
      else splitGo (.normal (isTermPunct c)) (c :: cur) cs
    | .normal prevPunct =>
      if isPySpace c && prevPunct then cur.reverse :: splitGo .skipping [] cs
      else splitGo (.normal (isTermPunct c)) (c :: cur) cs

/-- `re.split(r'(?<=[.!?])\s+', text)` (src/main.py line 196). -/
def pySplitSentences (text : String) : List String :=
  (splitGo (.normal false) [] text.data).map (fun l => ⟨l⟩)

/-- Python `str.strip()`: remove leading and trailing whitespace. -/
def pyStrip (s : String) : String :=
  ⟨((s.data.dropWhile (fun c => isPySpace c)).reverse.dropWhile
      (fun c => isPySpace c)).reverse⟩

/-- The chunk list of `make_srt` (src/main.py lines 196-198): stripped
sentence fragments with empty ones discarded; if nothing remains, the
whole stripped text is the single chunk. -/
def srtChunks (text : String) : List String :=
  let chunks := ((pySplitSentences text).map pyStrip).filter (fun c => c ≠ "")
  if chunks = [] then [pyStrip text] else chunks

/-- One subtitle cue of `make_srt`: 1-based index, start and end time in
seconds, and the chunk text.  `make_srt` renders each cue as
`index`, `HH:MM:SS,mmm --> HH:MM:SS,mmm`, text. -/
structure Cue where
  index : ℕ
  start : ℚ
  stop : ℚ
  text : String
deriving DecidableEq

/-- The cue-emitting loop of `make_srt` (src/main.py lines 205-210):
`start = cur; end = min(total_seconds, cur + per); cur = end`. -/
def makeCuesGo (T per : ℚ) : ℚ → ℕ → List String → List Cue
  | _, _, [] => []
  | cur, i, c :: cs =>
    ⟨i, cur, min T (cur + per), c⟩ ::
      makeCuesGo T per (min T (cur + per)) (i + 1) cs

/-- The cue sequence computed by `make_srt text total_seconds`
(src/main.py lines 195-211); the returned SRT string is these cues
rendered and joined with blank lines. -/
def make_srt_cues (text : String) (total_seconds : ℚ) : List Cue :=
  let chunks := srtChunks text
  let per := total_seconds / (chunks.length : ℚ)
  makeCuesGo total_seconds per 0 1 chunks

/-- `seg = min(MAX_CLIP, max(MIN_CLIP, dur if dur < MAX_CLIP else MAX_CLIP))`
(src/main.py line 224). -/
def seg_of (dur : ℚ) : ℚ :=
  min MAX_CLIP (max MIN_CLIP (if dur < MAX_CLIP then dur else MAX_CLIP))

/-- Duration of `vc.subclip(0, min(seg, dur))` (src/main.py line 225):
the length of the Selected Segment taken from a clip of duration `dur`. -/
def sub_len (dur : ℚ) : ℚ := min (seg_of dur) dur

/-- The accumulation loop of `build_video` (src/main.py lines 218-231).
A candidate clip is `some dur` when `VideoFileClip` opens it with
duration `dur`, and `none` when opening raises and the clip is skipped.
`total` is the running duration; the loop breaks as soon as
`total >= target` after appending a segment. -/
def buildSegments (target : ℚ) : ℚ → List (Option ℚ) → List ℚ
  | _, [] => []
  | total, none :: ps => buildSegments target total ps
  | total, some dur :: ps =>
    if target ≤ total + sub_len dur then [sub_len dur]
    else sub_len dur :: buildSegments target (total + sub_len dur) ps

/-- The assembled output of `build_video`: the selected segment lengths
in order and the total duration forced to the target by `set_duration`. -/
structure AssembledVideo where
  segments : List ℚ
  duration : ℚ
deriving DecidableEq

/-- `build_video` (src/main.py lines 214-247): raises
`RuntimeError("No usable clips downloaded.")` when no segment was
produced, and only otherwise reaches `write_videofile`. -/
def build_video (target : ℚ) (clips : List (Option ℚ)) :
    Except String AssembledVideo :=
  let vclips := buildSegments target 0 clips
  if vclips = [] then .error "No usable clips downloaded."
  else .ok ⟨vclips, target⟩

/-- A parsed JSON value as produced by `json.loads` (the Python values
reachable from JSON text). -/
inductive PyValue where
  | vint (n : ℤ)
  | vfloat (q : ℚ)
  | vstr (s : String)
  | vbool (b : Bool)
  | vnull
  | vlist (xs : List PyValue)
  | vdict (entries : List (String × PyValue))

/-- Decimal digits of an integer literal, as read by Python `int(str)`. -/
def digitsToNat (ds : List Char) : Option ℕ :=
  if ds ≠ [] ∧ ds.all Char.isDigit then
    some (ds.foldl (fun a c => a * 10 + (c.toNat - 48)) 0)
  else none

/-- Python `int(s)` on a string: optional surrounding whitespace,
optional sign, decimal digits; anything else raises `ValueError`. -/
def strToInt (s : String) : Option ℤ :=
  match (pyStrip s).data with
  | '+' :: ds => (digitsToNat ds).map (fun n => (n : ℤ))
  | '-' :: ds => (digitsToNat ds).map (fun n => -(n : ℤ))
  | ds => (digitsToNat ds).map (fun n => (n : ℤ))

/-- Python `int(x)`: succeeds on ints, bools and floats (truncating
toward zero) and on numeric strings; raises otherwise. -/
def py_int : PyValue → Option ℤ
  | .vint n => some n
  | .vbool b => some (if b then 1 else 0)
  | .vfloat q => some (if q < 0 then ⌈q⌉ else ⌊q⌋)
  | .vstr s => strToInt s
  | _ => none

/-- Python iteration `for x in data`: lists yield their elements,
strings their characters, dicts their keys; other values raise
`TypeError`. -/
def iterElems : PyValue → Option (List PyValue)
  | .vlist xs => some xs
  | .vstr s => some (s.data.map (fun c => .vstr ⟨[c]⟩))
  | .vdict entries => some (entries.map (fun e => .vstr e.1))
  | _ => none

/-- `[int(x) for x in elems]`: fails as soon as one conversion raises. -/
def intList : List PyValue → Option (List ℤ)
  | [] => some []
  | x :: xs =>
    match py_int x, intList xs with
    | some n, some l => some (n :: l)
    | _, _ => none

/-- `load_subscribers` (src/main.py lines 250-256).  `fileContent` is
the outcome of `Path(...).read_text` (`none` when reading raises),
`jsonOf` models `json.loads` (`none` when parsing raises); any exception
inside the `try` block yields `[]`. -/
def load_subscribers (fileContent : Option String)
    (jsonOf : String → Option PyValue) : List ℤ :=
  match fileContent with
  | none => []
  | some raw =>
    match jsonOf raw with
    | none => []
    | some data =>
      match iterElems data with
      | none => []
      | some elems =>
        match intList elems with
        | none => []
        | some l => l

/-- Outcome of one `send_video_to_telegram` attempt inside
`broadcast_video`: success, or a logged failure. -/
inductive SendEvent where
  | sent (chat_id : ℤ)
  | failed (chat_id : ℤ)
deriving DecidableEq

/-- `broadcast_video` (src/main.py lines 269-278), with `sendOk cid` the
oracle for whether `send_video_to_telegram` succeeds for chat `cid`.
The result is the ordered log of per-recipient outcomes; the function
always returns normally (a failed send is caught and printed). -/
def broadcast_video (sendOk : ℤ → Bool) (subscribers : List ℤ) :
    List SendEvent :=
  if subscribers = [] then []
  else subscribers.map (fun cid =>
    if sendOk cid then .sent cid else .failed cid)

/-- One entry of a Pexels `video_files` array. -/
structure VideoFileMeta where
  file_type : String
  link : String
  height : ℕ

/-- Stable insertion into a list sorted by height descending (model of
Python's stable `out.sort(key=lambda x: x[1], reverse=True)`). -/
def insertByHeightDesc (x : String × ℕ) :
    List (String × ℕ) → List (String × ℕ)
  | [] => [x]
  | y :: ys => if y.2 < x.2 then x :: y :: ys else y :: insertByHeightDesc x ys

/-- `choose_video_files` (src/main.py lines 160-167): keep the
`video/mp4` variants as `(link, height)` pairs, sorted by height
descending. -/
def choose_video_files (files : List VideoFileMeta) : List (String × ℕ) :=
  ((files.filter (fun f => f.file_type = "video/mp4")).map
      (fun f => (f.link, f.height))).foldl
    (fun acc x => insertByHeightDesc x acc) []

/-- One Pexels search result. -/
structure VideoItem where
  id : ℕ
  video_files : List VideoFileMeta

/-- The download loop of `fetch_stock_clips` (src/main.py lines 179-191):
`dlOk url` is the oracle for whether `download_binary` succeeds (a
failed download is skipped); the loop breaks once `MAX_DOWNLOADS` paths
have been collected. -/
def fetchGo (dlOk : String → Bool) :
    List VideoItem → List String → List String
  | [], paths => paths
  | v :: vs, paths =>
    let files := choose_video_files v.video_files
    if files = [] then fetchGo dlOk vs paths
    else
      let pick := files.getD (min 1 (files.length - 1)) ("", 0)
      let dest := "pexels_" ++ toString v.id ++ ".mp4"
      if dlOk pick.1 then
        if MAX_DOWNLOADS ≤ (paths ++ [dest]).length then paths ++ [dest]
        else fetchGo dlOk vs (paths ++ [dest])
      else fetchGo dlOk vs paths

/-- `fetch_stock_clips` (src/main.py lines 175-192).  The caller's
`random.shuffle` is modelled by quantifying over every order of `vids`. -/
def fetch_stock_clips (dlOk : String → Bool) (vids : List VideoItem) :
    List String :=
  fetchGo dlOk vids []

/-! ## Helper lemmas -/

theorem seg_of_eq_clamp (dur : ℚ) :
    seg_of dur = min MAX_CLIP (max MIN_CLIP dur) := by
  unfold seg_of
  rcases lt_or_le dur MAX_CLIP with h | h
  · rw [if_pos h]
  · rw [if_neg (not_lt.mpr h)]
    have h5 : MIN_CLIP ≤ MAX_CLIP := by norm_num [MIN_CLIP, MAX_CLIP]
    rw [max_eq_right h5, max_eq_right (h5.trans h), min_self, min_eq_left h]

theorem srtChunks_ne_nil (text : String) : srtChunks text ≠ [] := by
  simp only [srtChunks]
  split
  · simp
  · next h => exact h

/-! ## Claim theorems -/

/-- C1 (counterexample): for a candidate clip of duration 3 seconds the
assembler's Selected Segment has length 3, which is shorter than
`MIN_CLIP = 5` and differs from `clamp(duration, MIN_CLIP, MAX_CLIP) = 5`,
so the claim's "`end = clamp(duration, MIN_CLIP, MAX_CLIP)`" and "never
shorter than 5 seconds" are false as stated. -/
theorem seg_below_min_counterexample :
    buildSegments TARGET_SECONDS 0 [some 3] = [3] ∧
    sub_len 3 < MIN_CLIP ∧
    sub_len 3 ≠ min MAX_CLIP (max MIN_CLIP 3) := by
  refine ⟨?_, ?_, ?_⟩ <;>
    norm_num [buildSegments, sub_len, seg_of, TARGET_SECONDS, MIN_CLIP,
      MAX_CLIP, min_def, max_def]

/-- C1 (amended): for every candidate clip the assembler successfully
opens, the Selected Segment is the slice from offset 0 of length
`min(clamp(duration, MIN_CLIP, MAX_CLIP), duration)`: never longer than
`MAX_CLIP`, never longer than the clip's own duration, at least
`MIN_CLIP` whenever the clip itself lasts at least `MIN_CLIP`, and
exactly `MAX_CLIP` for every clip whose duration is at least `MAX_CLIP`. -/
theorem seg_len_clamped_to_duration (dur : ℚ) :
    sub_len dur = min (min MAX_CLIP (max MIN_CLIP dur)) dur ∧
    sub_len dur ≤ MAX_CLIP ∧
    sub_len dur ≤ dur ∧
    (MIN_CLIP ≤ dur → MIN_CLIP ≤ sub_len dur) ∧
    (MAX_CLIP ≤ dur → sub_len dur = MAX_CLIP) := by
  have he : sub_len dur = min (min MAX_CLIP (max MIN_CLIP dur)) dur := by
    rw [sub_len, seg_of_eq_clamp]
  refine ⟨he, ?_, ?_, ?_, ?_⟩
  · rw [he]; exact le_trans (min_le_left _ _) (min_le_left _ _)
  · rw [he]; exact min_le_right _ _
  · intro h
    rw [he]
    refine le_min (le_min ?_ (le_max_left _ _)) h
    norm_num [MIN_CLIP, MAX_CLIP]
  · intro h
    have hm : MIN_CLIP ≤ dur :=
      le_trans (by norm_num [MIN_CLIP, MAX_CLIP]) h
    rw [he, max_eq_right hm, min_eq_left h, min_eq_left h]

/-- C1 (witness): a 20-second clip yields a Selected Segment of exactly
`MAX_CLIP` seconds. -/
theorem seg_len_clamped_to_duration_witness : sub_len 20 = MAX_CLIP :=
  (seg_len_clamped_to_duration 20).2.2.2.2 (by norm_num [MAX_CLIP])

/-- C2: a candidate clip strictly shorter than `MIN_CLIP` contributes a
Selected Segment of its full duration; it is never padded up to
`MIN_CLIP`. -/
theorem short_clip_full_duration (dur : ℚ) (h : dur < MIN_CLIP) :
    sub_len dur = dur := by
  have h12 : dur < MAX_CLIP :=
    lt_of_lt_of_le h (by norm_num [MIN_CLIP, MAX_CLIP])
  rw [sub_len, seg_of, if_pos h12, max_eq_left h.le,
    min_eq_right (by norm_num [MIN_CLIP, MAX_CLIP] : MIN_CLIP ≤ MAX_CLIP)]
  exact min_eq_right h.le

/-- C2 (witness): a 4-second clip contributes all 4 seconds. -/
theorem short_clip_full_duration_witness : sub_len 4 = 4 :=
  short_clip_full_duration 4 (by norm_num [MIN_CLIP])

/-- C7: if zero segments were produced from the candidate clips,
`build_video` raises `RuntimeError("No usable clips downloaded.")` and
the encode-and-persist step is never reached: no output is produced. -/
theorem build_video_zero_segments_error (target : ℚ)
    (clips : List (Option ℚ)) (h : buildSegments target 0 clips = []) :
    build_video target clips = .error "No usable clips downloaded." ∧
    ∀ v, build_video target clips ≠ .ok v := by
  constructor
  · simp [build_video, h]
  · intro v
    simp [build_video, h]

/-- C7 (witness): a run whose single candidate fails to decode produces
the fatal error and no output. -/
theorem build_video_zero_segments_error_witness :
    build_video 30 [none] = .error "No usable clips downloaded." :=
  (build_video_zero_segments_error 30 [none] rfl).1

/-- C8: `load_subscribers` never raises.  If the file is missing or
unreadable, if the JSON is malformed, or if the parsed value is not
iterable or contains an entry that is not a numeric chat identifier,
the result is the empty recipient list; otherwise it is exactly the
list of numeric chat identifiers in the file. -/
theorem load_subscribers_total (fc : Option String)
    (jsonOf : String → Option PyValue) :
    (fc = none → load_subscribers fc jsonOf = []) ∧
    (∀ raw, fc = some raw → jsonOf raw = none →
      load_subscribers fc jsonOf = []) ∧
    (∀ raw d, fc = some raw → jsonOf raw = some d →
      (iterElems d = none ∨
        ∃ elems, iterElems d = some elems ∧ intList elems = none) →
      load_subscribers fc jsonOf = []) ∧
    (∀ raw d elems l, fc = some raw → jsonOf raw = some d →
      iterElems d = some elems → intList elems = some l →
      load_subscribers fc jsonOf = l) := by
  refine ⟨?_, ?_, ?_, ?_⟩
  · rintro rfl; rfl
  · rintro raw rfl hj
    simp [load_subscribers, hj]
  · rintro raw d rfl hj hbad
    rcases hbad with hit | ⟨elems, hit, hint⟩
    · simp [load_subscribers, hj, hit]
    · simp [load_subscribers, hj, hit, hint]
  · rintro raw d elems l rfl hj hit hint
    simp [load_subscribers, hj, hit, hint]

/-- C8 (witness): a missing file, malformed JSON, and a list containing
a non-numeric entry all yield `[]`; a well-formed list of numeric chat
identifiers is returned as-is. -/
theorem load_subscribers_total_witness :
    load_subscribers none (fun _ => none) = [] ∧
    load_subscribers (some "\x7b") (fun _ => none) = [] ∧
    load_subscribers (some "[1, true, \"oops\"]")
      (fun _ => some (.vlist [.vint 1, .vbool true, .vstr "oops"])) = [] ∧
    load_subscribers (some "[7, 8]")
      (fun _ => some (.vlist [.vint 7, .vint 8])) = [7, 8] :=
  ⟨(load_subscribers_total none (fun _ => none)).1 rfl,
   (load_subscribers_total (some "\x7b") (fun _ => none)).2.1 "\x7b" rfl rfl,
   (load_subscribers_total (some "[1, true, \"oops\"]")
      (fun _ => some (.vlist [.vint 1, .vbool true, .vstr "oops"]))).2.2.1
      "[1, true, \"oops\"]" (.vlist [.vint 1, .vbool true, .vstr "oops"])
      rfl rfl
      (Or.inr ⟨[.vint 1, .vbool true, .vstr "oops"], rfl, rfl⟩),
   (load_subscribers_total (some "[7, 8]")
      (fun _ => some (.vlist [.vint 7, .vint 8]))).2.2.2
      "[7, 8]" (.vlist [.vint 7, .vint 8]) [.vint 7, .vint 8] [7, 8]
      rfl rfl rfl rfl⟩

/-- C9: `broadcast_video` attempts delivery to every recipient in
order; a failed send is logged as an event but stops neither the
remaining deliveries nor the run (the function always returns its full
event log).  In particular, with 3 recipients where the 2nd fails,
recipients 1 and 3 are still sent the video. -/
theorem broadcast_video_independent_delivery (sendOk : ℤ → Bool)
    (subscribers : List ℤ) :
    broadcast_video sendOk subscribers =
      subscribers.map (fun cid =>
        if sendOk cid then .sent cid else .failed cid) ∧
    broadcast_video (fun cid => cid != 2) [1, 2, 3] =
      [.sent 1, .failed 2, .sent 3] := by
  constructor
  · rw [broadcast_video]
    split
    · next hs => rw [hs]; rfl
    · rfl
  · rfl

theorem fetchGo_length_le (dlOk : String → Bool) :
    ∀ (vids : List VideoItem) (paths : List String),
      paths.length < MAX_DOWNLOADS →
      (fetchGo dlOk vids paths).length ≤ MAX_DOWNLOADS
  | [], paths, h => by simpa [fetchGo] using h.le
  | v :: vs, paths, h => by
    simp only [fetchGo]
    split
    · exact fetchGo_length_le dlOk vs paths h
    · split
      · split
        · next hbr =>
          simp only [List.length_append, List.length_singleton]
          omega
        · next hbr =>
          refine fetchGo_length_le dlOk vs _ ?_
          simp only [List.length_append, List.length_singleton] at hbr ⊢
          omega
      · exact fetchGo_length_le dlOk vs paths h

/-- C10: `fetch_stock_clips` downloads and returns at most
`MAX_DOWNLOADS = 6` clip file paths, regardless of how many candidate
videos the search returned and of which downloads succeed. -/
theorem fetch_stock_clips_capped (dlOk : String → Bool)
    (vids : List VideoItem) :
    (fetch_stock_clips dlOk vids).length ≤ MAX_DOWNLOADS :=
  fetchGo_length_le dlOk vids [] (by norm_num [MAX_DOWNLOADS])

theorem buildSegments_spec (target : ℚ) :
    ∀ (clips : List (Option ℚ)) (total : ℚ), total < target →
      buildSegments target total clips =
        (((clips.filterMap id).map sub_len).take
          (buildSegments target total clips).length) ∧
      (target ≤ total + (buildSegments target total clips).sum ∨
        buildSegments target total clips = (clips.filterMap id).map sub_len) ∧
      ∀ j < (buildSegments target total clips).length,
        total + (((clips.filterMap id).map sub_len).take j).sum < target
  | [], total, h => by
    simp [buildSegments]
  | none :: ps, total, h => by
    simpa [buildSegments] using buildSegments_spec target ps total h
  | some dur :: ps, total, h => by
    by_cases hc : target ≤ total + sub_len dur
    · refine ⟨?_, Or.inl ?_, ?_⟩
      · simp [buildSegments, hc]
      · simp only [buildSegments, if_pos hc, List.sum_singleton]
        exact hc
      · intro j hj
        simp only [buildSegments, if_pos hc, List.length_singleton] at hj
        interval_cases j
        simp only [List.take_zero, List.sum_nil, add_zero]
        exact h
    · have hlt : total + sub_len dur < target := not_le.mp hc
      obtain ⟨ih1, ih2, ih3⟩ := buildSegments_spec target ps (total + sub_len dur) hlt
      refine ⟨?_, ?_, ?_⟩
      · simp only [buildSegments, if_neg hc, List.filterMap_cons, id,
          List.map_cons, List.length_cons, List.take_succ_cons]
        exact congrArg _ ih1
      · rcases ih2 with h2 | h2
        · refine Or.inl ?_
          simp only [buildSegments, if_neg hc, List.sum_cons]
          linarith
        · refine Or.inr ?_
          simp only [buildSegments, if_neg hc, List.filterMap_cons, id,
            List.map_cons]
          exact congrArg _ h2
      · intro j hj
        match j with
        | 0 => simpa using h
        | j + 1 =>
          simp only [buildSegments, if_neg hc, List.length_cons] at hj
          have hj' : j < (buildSegments target (total + sub_len dur) ps).length := by
            omega
          have := ih3 j hj'
          simp only [List.filterMap_cons, id, List.map_cons,
            List.take_succ_cons, List.sum_cons]
          linarith

/-- C6: `build_video` processes candidate clips in order, skipping each
clip that fails to decode, and the accumulated segment list is exactly
the shortest prefix of the successfully-decoded clips' segments whose
total duration reaches the target; if the candidates run out first,
every successfully-decoded clip's segment is included. -/
theorem build_video_shortest_cover (target : ℚ) (clips : List (Option ℚ))
    (hT : 0 < target) :
    buildSegments target 0 clips =
      (((clips.filterMap id).map sub_len).take
        (buildSegments target 0 clips).length) ∧
    (target ≤ (buildSegments target 0 clips).sum ∨
      buildSegments target 0 clips = (clips.filterMap id).map sub_len) ∧
    ∀ j < (buildSegments target 0 clips).length,
      (((clips.filterMap id).map sub_len).take j).sum < target := by
  obtain ⟨h1, h2, h3⟩ := buildSegments_spec target clips 0 hT
  refine ⟨h1, ?_, ?_⟩
  · simpa using h2
  · intro j hj
    simpa using h3 j hj

/-- C6 (witness): with candidates of durations 20 s, undecodable, 8 s
and 9 s against a 30-second target, the accumulated list is a prefix of
the decoded clips' segment list. -/
theorem build_video_shortest_cover_witness :
    buildSegments 30 0 [some 20, none, some 8, some 9] =
      ((([some 20, none, some 8, some 9].filterMap id).map sub_len).take
        (buildSegments 30 0 [some 20, none, some 8, some 9]).length) :=
  (build_video_shortest_cover 30 [some 20, none, some 8, some 9]
    (by norm_num)).1

theorem makeCuesGo_length (T per : ℚ) :
    ∀ (cs : List String) (cur : ℚ) (i : ℕ),
      (makeCuesGo T per cur i cs).length = cs.length
  | [], _, _ => rfl
  | _ :: cs, cur, i => by
    simp [makeCuesGo, makeCuesGo_length T per cs]

theorem makeCuesGo_chain (T per : ℚ) :
    ∀ (cs : List String) (cur : ℚ) (i : ℕ),
      List.Chain' (fun a b => a.stop = b.start) (makeCuesGo T per cur i cs)
  | [], _, _ => List.chain'_nil
  | [c], cur, i => by simp [makeCuesGo]
  | c :: c' :: cs, cur, i => by
    have ih := makeCuesGo_chain T per (c' :: cs) (min T (cur + per)) (i + 1)
    simp only [makeCuesGo] at ih ⊢
    exact List.chain'_cons.mpr ⟨rfl, ih⟩

theorem makeCuesGo_getLast_stop (T per : ℚ) (hper : 0 ≤ per) :
    ∀ (cs : List String) (cur : ℚ) (i : ℕ),
      T ≤ cur + cs.length * per →
      ∀ cue, (makeCuesGo T per cur i cs).getLast? = some cue → cue.stop = T
  | [], cur, i, hle, cue, hlast => by simp [makeCuesGo] at hlast
  | [c], cur, i, hle, cue, hlast => by
    have h1 : T ≤ cur + per := by simpa using hle
    simp only [makeCuesGo, List.getLast?_singleton, Option.some.injEq] at hlast
    subst hlast
    exact min_eq_left h1
  | c :: c' :: cs, cur, i, hle, cue, hlast => by
    have e : makeCuesGo T per cur i (c :: c' :: cs) =
        (⟨i, cur, min T (cur + per), c⟩ : Cue) ::
          (⟨i + 1, min T (cur + per),
              min T (min T (cur + per) + per), c'⟩ : Cue) ::
            makeCuesGo T per (min T (min T (cur + per) + per)) (i + 2) cs :=
      rfl
    rw [e, List.getLast?_cons_cons] at hlast
    have hlast' :
        (makeCuesGo T per (min T (cur + per)) (i + 1) (c' :: cs)).getLast? =
          some cue := hlast
    refine makeCuesGo_getLast_stop T per hper (c' :: cs)
      (min T (cur + per)) (i + 1) ?_ cue hlast'
    have hnn : 0 ≤ ((cs.length : ℚ) + 1) * per := by positivity
    rcases le_total T (cur + per) with hmin | hmin
    · rw [min_eq_left hmin]
      simp only [List.length_cons]
      push_cast
      nlinarith
    · rw [min_eq_right hmin]
      simp only [List.length_cons] at hle ⊢
      push_cast at hle ⊢
      nlinarith

/-- C3: for every target duration `T > 0` and every narration text, the
cue sequence of `make_srt` exactly tiles `[0, T]`: cue count equals
chunk count, the first cue starts at 0, each cue's end is the next
cue's start, and the last cue ends at exactly `T`. -/
theorem make_srt_cues_tile (text : String) (T : ℚ) (hT : 0 < T) :
    (make_srt_cues text T).length = (srtChunks text).length ∧
    make_srt_cues text T ≠ [] ∧
    (∀ cue, (make_srt_cues text T).head? = some cue → cue.start = 0) ∧
    List.Chain' (fun a b => a.stop = b.start) (make_srt_cues text T) ∧
    (∀ cue, (make_srt_cues text T).getLast? = some cue → cue.stop = T) := by
  have hchunks : srtChunks text ≠ [] := srtChunks_ne_nil text
  have hnQ : (0 : ℚ) < ((srtChunks text).length : ℚ) := by
    exact_mod_cast List.length_pos.mpr hchunks
  have hper : (0 : ℚ) ≤ T / ((srtChunks text).length : ℚ) := by positivity
  have hlen : (make_srt_cues text T).length = (srtChunks text).length :=
    makeCuesGo_length T _ _ _ _
  refine ⟨hlen, ?_, ?_, ?_, ?_⟩
  · intro hnil
    exact hchunks (List.length_eq_zero.mp (by rw [← hlen, hnil, List.length_nil]))
  · intro cue hcue
    rcases hc : srtChunks text with _ | ⟨a, l⟩
    · exact absurd hc hchunks
    · simp only [make_srt_cues, hc, makeCuesGo, List.head?_cons,
        Option.some.injEq] at hcue
      subst hcue
      rfl
  · exact makeCuesGo_chain T _ _ _ _
  · intro cue hcue
    refine makeCuesGo_getLast_stop T (T / ((srtChunks text).length : ℚ))
      hper (srtChunks text) 0 1 ?_ cue hcue
    have hcancel :
        ((srtChunks text).length : ℚ) *
          (T / ((srtChunks text).length : ℚ)) = T := by
      field_simp
    rw [zero_add, hcancel]

/-- C3 (witness): a concrete two-sentence narration at `T = 30`. -/
theorem make_srt_cues_tile_witness :
    (make_srt_cues "Stay calm. Pack water." 30).length =
      (srtChunks "Stay calm. Pack water.").length ∧
    make_srt_cues "Stay calm. Pack water." 30 ≠ [] :=
  ⟨(make_srt_cues_tile "Stay calm. Pack water." 30 (by norm_num)).1,
   (make_srt_cues_tile "Stay calm. Pack water." 30 (by norm_num)).2.1⟩

theorem per_mul_le (T : ℚ) (hT : 0 < T) (n : ℕ) (hn : 0 < n)
    (m : ℕ) (hm : m ≤ n) : (m : ℚ) * (T / (n : ℚ)) ≤ T := by
  have hnQ : (0 : ℚ) < (n : ℚ) := by exact_mod_cast hn
  calc (m : ℚ) * (T / (n : ℚ)) ≤ (n : ℚ) * (T / (n : ℚ)) := by
        refine mul_le_mul_of_nonneg_right ?_ (by positivity)
        exact_mod_cast hm
    _ = T := by field_simp

theorem makeCuesGo_getElem (T per : ℚ) :
    ∀ (cs : List String) (k i j : ℕ) (c : String),
      (∀ m : ℕ, m + 1 ≤ cs.length → ((k : ℚ) + m + 1) * per ≤ T) →
      cs[j]? = some c →
      (makeCuesGo T per ((k : ℚ) * per) i cs)[j]? =
        some ⟨i + j, ((k : ℚ) + j) * per, min T (((k : ℚ) + j + 1) * per), c⟩
  | [], _, _, j, _, _, hc => by simp at hc
  | c0 :: cs, k, i, 0, c, h, hc => by
    simp only [List.getElem?_cons_zero, Option.some.injEq] at hc
    subst hc
    have e : makeCuesGo T per ((k : ℚ) * per) i (c0 :: cs) =
        (⟨i, (k : ℚ) * per, min T ((k : ℚ) * per + per), c0⟩ : Cue) ::
          makeCuesGo T per (min T ((k : ℚ) * per + per)) (i + 1) cs := rfl
    rw [e, List.getElem?_cons_zero]
    have e1 : ((k : ℚ) + (0 : ℕ)) * per = (k : ℚ) * per := by
      push_cast; ring
    have e2 : ((k : ℚ) + (0 : ℕ) + 1) * per = (k : ℚ) * per + per := by
      push_cast; ring
    rw [e1, e2, Nat.add_zero]
  | c0 :: cs, k, i, j + 1, c, h, hc => by
    simp only [List.getElem?_cons_succ] at hc
    have h1 : ((k : ℚ) + 1) * per ≤ T := by
      have := h 0 (by simp)
      push_cast at this ⊢
      linarith
    have hx : (k : ℚ) * per + per ≤ T := by nlinarith [h1]
    have e : makeCuesGo T per ((k : ℚ) * per) i (c0 :: cs) =
        (⟨i, (k : ℚ) * per, min T ((k : ℚ) * per + per), c0⟩ : Cue) ::
          makeCuesGo T per (min T ((k : ℚ) * per + per)) (i + 1) cs := rfl
    have emin : min T ((k : ℚ) * per + per) = ((k + 1 : ℕ) : ℚ) * per := by
      rw [min_eq_right hx]
      push_cast
      ring
    have ih := makeCuesGo_getElem T per cs (k + 1) (i + 1) j c
      (fun m hm => by
        have hmm := h (m + 1) (by simp only [List.length_cons]; omega)
        have e4 : (((k + 1 : ℕ) : ℚ) + m + 1) * per =
            ((k : ℚ) + ((m + 1 : ℕ) : ℚ) + 1) * per := by
          push_cast; ring
        rw [e4]
        push_cast at hmm ⊢
        linarith) hc
    rw [e, List.getElem?_cons_succ, emin, ih]
    have e5 : (i + 1) + j = i + (j + 1) := by omega
    have e6 : (((k + 1 : ℕ) : ℚ) + (j : ℚ)) * per =
        ((k : ℚ) + ((j + 1 : ℕ) : ℚ)) * per := by
      push_cast; ring
    have e7 : (((k + 1 : ℕ) : ℚ) + (j : ℚ) + 1) * per =
        ((k : ℚ) + ((j + 1 : ℕ) : ℚ) + 1) * per := by
      push_cast; ring
    rw [e5, e6, e7]

/-- C4: `make_srt` allocates every chunk an equal share
`per = T / chunk_count`, independent of the chunk's text length: cue `j`
(0-based) has window `[j*per, min(T, (j+1)*per)]` of length exactly
`per`; and the example text with `T = 30` yields exactly the three cues
`[0,10)`, `[10,20)`, `[20,30]`. -/
theorem make_srt_equal_allocation (text : String) (T : ℚ) (hT : 0 < T) :
    (∀ j (hj : j < (make_srt_cues text T).length),
      ((make_srt_cues text T)[j]).start =
          (j : ℚ) * (T / ((srtChunks text).length : ℚ)) ∧
      ((make_srt_cues text T)[j]).stop =
          min T (((j : ℚ) + 1) * (T / ((srtChunks text).length : ℚ))) ∧
      ((make_srt_cues text T)[j]).stop - ((make_srt_cues text T)[j]).start =
          T / ((srtChunks text).length : ℚ)) ∧
    make_srt_cues "Boil water. Check the radio. Pack bandages." 30 =
      [⟨1, 0, 10, "Boil water."⟩, ⟨2, 10, 20, "Check the radio."⟩,
        ⟨3, 20, 30, "Pack bandages."⟩] := by
  constructor
  · intro j hj
    have hchunks : srtChunks text ≠ [] := srtChunks_ne_nil text
    have hn : 0 < (srtChunks text).length := List.length_pos.mpr hchunks
    have hlen : (make_srt_cues text T).length = (srtChunks text).length :=
      makeCuesGo_length T _ _ _ _
    have hjn : j < (srtChunks text).length := hlen ▸ hj
    have hc : (srtChunks text)[j]? = some ((srtChunks text)[j]) :=
      List.getElem?_eq_getElem hjn
    have hhyp : ∀ m : ℕ, m + 1 ≤ (srtChunks text).length →
        (((0 : ℕ) : ℚ) + m + 1) * (T / ((srtChunks text).length : ℚ)) ≤ T := by
      intro m hm
      have := per_mul_le T hT (srtChunks text).length hn (m + 1) hm
      push_cast at this ⊢
      linarith
    have key := makeCuesGo_getElem T (T / ((srtChunks text).length : ℚ))
      (srtChunks text) 0 1 j ((srtChunks text)[j]) hhyp hc
    have em : make_srt_cues text T =
          makeCuesGo T (T / ((srtChunks text).length : ℚ))
            (((0 : ℕ) : ℚ) * (T / ((srtChunks text).length : ℚ))) 1
            (srtChunks text) := by
      simp [make_srt_cues]
    have hval : (make_srt_cues text T)[j]? =
        some ⟨1 + j, (((0 : ℕ) : ℚ) + j) * (T / ((srtChunks text).length : ℚ)),
          min T ((((0 : ℕ) : ℚ) + j + 1) * (T / ((srtChunks text).length : ℚ))),
          (srtChunks text)[j]⟩ := by
      rw [em]; exact key
    have hval' : (make_srt_cues text T)[j] =
        ⟨1 + j, (((0 : ℕ) : ℚ) + j) * (T / ((srtChunks text).length : ℚ)),
          min T ((((0 : ℕ) : ℚ) + j + 1) * (T / ((srtChunks text).length : ℚ))),
          (srtChunks text)[j]⟩ := by
      have := List.getElem?_eq_getElem hj
      rw [this] at hval
      exact Option.some.inj hval
    have hjle : ((j : ℚ) + 1) * (T / ((srtChunks text).length : ℚ)) ≤ T := by
      have := per_mul_le T hT (srtChunks text).length hn (j + 1) hjn
      push_cast at this ⊢
      linarith
    refine ⟨?_, ?_, ?_⟩
    · rw [hval']
      push_cast
      ring
    · rw [hval']
      push_cast
      ring_nf
    · rw [hval']
      simp only
      rw [min_eq_right (by push_cast; linarith [hjle])]
      push_cast
      ring
  · have hch : srtChunks "Boil water. Check the radio. Pack bandages." =
        ["Boil water.", "Check the radio.", "Pack bandages."] := by decide
    rw [make_srt_cues, hch]
    norm_num [makeCuesGo, min_def, Cue.mk.injEq]

/-- C4 (witness): the claim's example, extracted from the theorem at a
concrete input. -/
theorem make_srt_equal_allocation_witness :
    make_srt_cues "Boil water. Check the radio. Pack bandages." 30 =
      [⟨1, 0, 10, "Boil water."⟩, ⟨2, 10, 20, "Check the radio."⟩,
        ⟨3, 20, 30, "Pack bandages."⟩] :=
  (make_srt_equal_allocation "Boil water. Check the radio. Pack bandages."
    30 (by norm_num)).2

theorem splitGo_no_punct :
    ∀ (cs : List Char) (cur : List Char),
      (∀ c ∈ cs, isTermPunct c = false) →
      splitGo (.normal false) cur cs = [cur.reverse ++ cs]
  | [], cur, h => by simp [splitGo]
  | c :: cs, cur, h => by
    have hc : isTermPunct c = false := h c (List.mem_cons_self c cs)
    have ih := splitGo_no_punct cs (c :: cur)
      (fun x hx => h x (List.mem_cons_of_mem c hx))
    simp only [splitGo, Bool.and_false, Bool.false_eq_true, if_false, hc, ih]
    simp

theorem srtChunks_no_punct (text : String)
    (hp : ∀ c ∈ text.data, isTermPunct c = false) :
    srtChunks text = [pyStrip text] := by
  have hsplit : pySplitSentences text = [text] := by
    have h1 : splitGo (.normal false) [] text.data = [text.data] := by
      simpa using splitGo_no_punct text.data [] hp
    rw [pySplitSentences, h1]
    rfl
  simp only [srtChunks, hsplit, List.map_cons, List.map_nil]
  by_cases he : pyStrip text = ""
  · simp [he]
  · simp [he]

/-- C5: for every non-empty narration text containing no terminal
punctuation (`.`, `!`, `?`), `make_srt` produces exactly one cue, and
its window spans exactly `[0, T]`. -/
theorem make_srt_no_punct_single_cue (text : String) (T : ℚ)
    (_hne : text ≠ "") (hp : ∀ c ∈ text.data, isTermPunct c = false) :
    make_srt_cues text T = [⟨1, 0, T, pyStrip text⟩] := by
  have h1 := srtChunks_no_punct text hp
  rw [make_srt_cues, h1]
  have h2 : T / (([pyStrip text].length : ℕ) : ℚ) = T := by
    norm_num
  simp only [makeCuesGo, h2, zero_add, min_self]

/-- C5 (witness): a punctuation-free narration at `T = 30` yields the
single cue `[0, 30]`. -/
theorem make_srt_no_punct_single_cue_witness :
    make_srt_cues "stay calm and carry water" 30 =
      [⟨1, 0, 30, pyStrip "stay calm and carry water"⟩] :=
  make_srt_no_punct_single_cue "stay calm and carry water" 30
    (by decide) (by decide)
